import Mathlib

/-!
Verification of the arithmetic expansion pass (ExpandOps.cpp).

The pass rewrites `arith.ceildivui`, `arith.ceildivsi`, `arith.floordivsi`,
`arith.maxf`/`arith.minf` and the four integer min/max ops into sequences of
primitive ops.  This file shallowly embeds each rewrite's replacement graph:

* the three division expansions become functions on mathematical integers with
  explicit two's-complement wraparound (`wrap`) on every `addi`/`subi`, and
  `Int.tdiv` (truncation toward zero) for `arith.divsi`; unsigned values are
  `Nat` below `2^w` with `% 2^w` wraparound and `Nat` division for
  `arith.divui`;
* the float min/max expansion is embedded over a small IEEE-comparison model
  (`Flt`): a float is a NaN (quiet or signaling) or a finite rational with a
  negative-zero flag; ordered comparisons are false on NaN and compare the
  rational values (so `+0 = -0`), the unordered comparison is true iff some
  operand is NaN;
* the structural claims (emitted op kinds, result typing, the vector
  broadcast of the NaN constant) are settled over a deep embedding `AExp` of
  the replacement graphs together with a type checker `tyOf` mirroring the
  builder's typing rules; SSA sharing of constants is flattened into a tree,
  which is irrelevant for op-kind and typing questions;
* the pass driver (`runOnFunction`) is modelled as the conversion setup it
  builds (patterns, legal dialects, illegal ops) plus the failure flag it
  derives from the partial-conversion driver's outcome.

`arith.divsi` overflow (`MIN /s -1`) is undefined behaviour in the source; the
claims' hypotheses keep every selected branch away from it, so the embedding
simply uses `Int.tdiv` there.
-/

/-- Two's-complement wraparound of an integer to a signed `w`-bit value:
the representative of `x mod 2^w` in `[-2^(w-1), 2^(w-1))`. -/
def wrap (w : Nat) (x : Int) : Int :=
  (x + 2 ^ (w - 1)) % 2 ^ w - 2 ^ (w - 1)

/-- Smallest signed `w`-bit integer. -/
def minS (w : Nat) : Int := -(2 ^ (w - 1))

/-- Largest signed `w`-bit integer. -/
def maxS (w : Nat) : Int := 2 ^ (w - 1) - 1

/-- `CeilDivUIOpConverter::matchAndRewrite`: expands `ceildivui (a, b)` into
`a == 0 ? 0 : ((a - 1) / b) + 1` over `w`-bit unsigned integers, with
wraparound on `subi`/`addi` and `arith.divui` as `Nat` division. -/
def ceilDivUIExpand (w : Nat) (a b : Nat) : Nat :=
  let zero := 0
  let compare := a == zero
  let one := 1
  let minusOne := (a + (2 ^ w - one)) % 2 ^ w
  let quotient := minusOne / b
  let plusOne := (quotient + one) % 2 ^ w
  if compare then zero else plusOne

/-- `CeilDivSIOpConverter::matchAndRewrite`: expands `ceildivsi (a, b)` into
`x = (b > 0) ? -1 : 1; ((a<0 && b<0) || (a>0 && b>0)) ? 1 + ((x+a)/b)
: -((-a)/b)` over `w`-bit signed integers, with wraparound on `addi`/`subi`
and `arith.divsi` as truncating division. -/
def ceilDivSIExpand (w : Nat) (a b : Int) : Int :=
  let plusOne : Int := 1
  let zero : Int := 0
  let minusOne : Int := -1
  let compare := decide (b > zero)
  let x := if compare then minusOne else plusOne
  let xPlusA := wrap w (x + a)
  let xPlusADivB := Int.tdiv xPlusA b
  let posRes := wrap w (plusOne + xPlusADivB)
  let minusA := wrap w (zero - a)
  let minusADivB := Int.tdiv minusA b
  let negRes := wrap w (zero - minusADivB)
  let aNeg := decide (a < zero)
  let aPos := decide (a > zero)
  let bNeg := decide (b < zero)
  let bPos := decide (b > zero)
  let firstTerm := aNeg && bNeg
  let secondTerm := aPos && bPos
  let compareRes := firstTerm || secondTerm
  if compareRes then posRes else negRes

/-- `FloorDivSIOpConverter::matchAndRewrite`: expands `floordivsi (a, b)` into
`x = (b < 0) ? 1 : -1; ((a<0 && b>0) || (a>0 && b<0)) ? -1 - ((x-a)/b)
: a/b` over `w`-bit signed integers, with wraparound on `addi`/`subi` and
`arith.divsi` as truncating division. -/
def floorDivSIExpand (w : Nat) (a b : Int) : Int :=
  let plusOne : Int := 1
  let zero : Int := 0
  let minusOne : Int := -1
  let compare := decide (b < zero)
  let x := if compare then plusOne else minusOne
  let xMinusA := wrap w (x - a)
  let xMinusADivB := Int.tdiv xMinusA b
  let negRes := wrap w (minusOne - xMinusADivB)
  let posRes := Int.tdiv a b
  let aNeg := decide (a < zero)
  let aPos := decide (a > zero)
  let bNeg := decide (b < zero)
  let bPos := decide (b > zero)
  let firstTerm := aNeg && bPos
  let secondTerm := aPos && bNeg
  let compareRes := firstTerm || secondTerm
  if compareRes then negRes else posRes

/-- The `arith.cmpi` predicates used by the pass. -/
inductive IPred where
  | eq | sgt | slt | ugt | ult
deriving DecidableEq, Repr

/-- Signed reading of a `w`-bit pattern (a `Nat` below `2^w`). -/
def toSigned (w : Nat) (x : Nat) : Int :=
  if x < 2 ^ (w - 1) then (x : Int) else (x : Int) - 2 ^ w

/-- `arith.cmpi` on `w`-bit patterns. -/
def cmpi (w : Nat) (p : IPred) (x y : Nat) : Bool :=
  match p with
  | .eq => x == y
  | .sgt => decide (toSigned w x > toSigned w y)
  | .slt => decide (toSigned w x < toSigned w y)
  | .ugt => decide (x > y)
  | .ult => decide (x < y)

/-- `MaxMinIOpConverter::matchAndRewrite`: expands an integer min/max op with
comparison predicate `p` into `select (cmpi p lhs rhs) lhs rhs`. -/
def maxMinIExpand (w : Nat) (p : IPred) (lhs rhs : Nat) : Nat :=
  let cmp := cmpi w p lhs rhs
  if cmp then lhs else rhs

/-- `arith.maxsi` instantiation registered in
`populateArithmeticExpandOpsPatterns` (predicate `sgt`). -/
def maxSIExpand (w : Nat) (lhs rhs : Nat) : Nat := maxMinIExpand w .sgt lhs rhs

/-- `arith.maxui` instantiation (predicate `ugt`). -/
def maxUIExpand (w : Nat) (lhs rhs : Nat) : Nat := maxMinIExpand w .ugt lhs rhs

/-- `arith.minsi` instantiation (predicate `slt`). -/
def minSIExpand (w : Nat) (lhs rhs : Nat) : Nat := maxMinIExpand w .slt lhs rhs

/-- `arith.minui` instantiation (predicate `ult`). -/
def minUIExpand (w : Nat) (lhs rhs : Nat) : Nat := maxMinIExpand w .ult lhs rhs

/-- `2^w` splits as twice `2^(w-1)` for positive widths. -/
lemma two_pow_split {w : Nat} (hw : 1 ≤ w) : (2:Int) ^ w = 2 * 2 ^ (w - 1) := by
  conv_lhs => rw [show w = (w - 1) + 1 by omega]
  rw [pow_succ]
  ring

/-- Signed wraparound is the identity on representable values. -/
lemma wrap_eq_self {w : Nat} {x : Int} (hw : 1 ≤ w)
    (h1 : -(2 ^ (w - 1)) ≤ x) (h2 : x < 2 ^ (w - 1)) : wrap w x = x := by
  have hpow := two_pow_split hw
  have hp : (0:Int) < 2 ^ (w - 1) := pow_pos (by norm_num) _
  unfold wrap
  rw [Int.emod_eq_of_lt (by omega) (by omega)]
  omega

/-- The key Euclidean-division identity behind the signed expansions:
dividing the "nudged" negation recovers the original quotient. -/
lemma neg_one_sub_ediv (t c : Int) (hc : 0 < c) :
    -1 - ((-1 - t) / c) = t / c := by
  have hc0 : c ≠ 0 := hc.ne'
  have hmod := Int.emod_nonneg t hc0
  have hmod2 := Int.emod_lt_of_pos t hc
  have hdecomp : -1 - t = (c - 1 - t % c) + (-1 - t / c) * c := by
    linear_combination Int.ediv_add_emod t c
  rw [show (-1 - t : Int) = (c - 1 - t % c) + (-1 - t / c) * c from hdecomp,
    Int.add_mul_ediv_right _ _ hc0,
    Int.ediv_eq_zero_of_lt (by omega) (by omega)]
  generalize t / c = q
  omega

/-- Rational floor of a quotient with positive denominator is `Int.ediv`. -/
lemma floor_rat_pos (a b : Int) (hb : 0 < b) : ⌊(a:ℚ)/(b:ℚ)⌋ = a / b := by
  have hb' : ((b.toNat : ℤ)) = b := Int.toNat_of_nonneg hb.le
  calc ⌊(a:ℚ)/(b:ℚ)⌋ = ⌊(a:ℚ)/(((b.toNat:ℤ)):ℚ)⌋ := by rw [hb']
    _ = a / (b.toNat : ℤ) := by
        push_cast
        exact Rat.floor_intCast_div_natCast a b.toNat
    _ = a / b := by rw [hb']

/-- Rational floor of a quotient with negative denominator, via negation. -/
lemma floor_rat_neg (a b : Int) (hb : b < 0) : ⌊(a:ℚ)/(b:ℚ)⌋ = (-a) / (-b) := by
  have h : (a:ℚ)/(b:ℚ) = (((-a : ℤ)):ℚ)/(((-b : ℤ)):ℚ) := by
    push_cast
    rw [neg_div_neg_eq]
  rw [h, floor_rat_pos (-a) (-b) (by omega)]

/-- Rational ceiling of a quotient with positive denominator. -/
lemma ceil_rat_pos (a b : Int) (hb : 0 < b) : ⌈(a:ℚ)/(b:ℚ)⌉ = -((-a) / b) := by
  have h : (a:ℚ)/(b:ℚ) = -((((-a : ℤ)):ℚ)/(b:ℚ)) := by push_cast; ring
  rw [h, Int.ceil_neg, floor_rat_pos (-a) b hb]

example : ceilDivUIExpand 32 0 7 = 0 := by decide
example : ceilDivUIExpand 4 15 2 = 8 := by decide
example : ceilDivSIExpand 8 7 2 = 4 := by decide
example : ceilDivSIExpand 8 (-7) 2 = -3 := by decide
example : ceilDivSIExpand 8 7 (-2) = -3 := by decide
example : ceilDivSIExpand 8 (-7) (-2) = 4 := by decide
example : ceilDivSIExpand 8 (-128) 2 = 64 := by decide
example : floorDivSIExpand 8 7 2 = 3 := by decide
example : floorDivSIExpand 8 (-7) 2 = -4 := by decide
example : floorDivSIExpand 8 7 (-2) = -4 := by decide
example : floorDivSIExpand 8 (-7) (-2) = 3 := by decide
example : floorDivSIExpand 8 (-128) 2 = -64 := by decide
example : maxSIExpand 8 255 127 = 127 := by decide
example : maxUIExpand 8 255 1 = 255 := by decide


/-- `2^w` splits as twice `2^(w-1)` for positive widths (`Nat` version). -/
lemma two_pow_split_nat {w : Nat} (hw : 1 ≤ w) : (2:Nat) ^ w = 2 * 2 ^ (w - 1) := by
  conv_lhs => rw [show w = (w - 1) + 1 by omega]
  rw [pow_succ]
  ring

/-- Closed form of the unsigned ceiling-division expansion. -/
lemma ceilDivUIExpand_eq (w : Nat) (a b : Nat) :
    ceilDivUIExpand w a b =
      if a = 0 then 0 else ((a + (2 ^ w - 1)) % 2 ^ w / b + 1) % 2 ^ w := by
  unfold ceilDivUIExpand
  simp only [beq_iff_eq]

lemma floorDivSIExpand_eq (w : Nat) (a b : Int) :
    floorDivSIExpand w a b =
      if (a < 0 ∧ 0 < b) ∨ (0 < a ∧ b < 0) then
        wrap w (-1 - Int.tdiv (wrap w ((if b < 0 then 1 else -1) - a)) b)
      else Int.tdiv a b := by
  unfold floorDivSIExpand
  simp only [Bool.or_eq_true, Bool.and_eq_true, decide_eq_true_eq, gt_iff_lt]

/-- Claim C2: for every width `w ≥ 2` and signed representable `a, b` with
`b ≠ 0` and not (`a = MIN_w` and `b = -1`), the `FloorDivSIOpConverter`
expansion `x = (b < 0) ? 1 : -1; ((a<0 && b>0) || (a>0 && b<0))
? -1 - ((x - a)/b) : a/b` — with truncating signed division and
two's-complement wraparound on add/sub — equals the mathematical floor of the
rational `a / b`. -/
theorem floorDivSI_spec (w : Nat) (a b : Int) (hw : 2 ≤ w)
    (ha1 : minS w ≤ a) (ha2 : a ≤ maxS w) (hb1 : minS w ≤ b) (hb2 : b ≤ maxS w)
    (hb0 : b ≠ 0) (hmin : ¬(a = minS w ∧ b = -1)) :
    floorDivSIExpand w a b = ⌊(a:ℚ)/(b:ℚ)⌋ := by
  have hw1 : (1:Nat) ≤ w := by omega
  have hM2 : (2:Int) ≤ 2 ^ (w - 1) := by
    calc (2:Int) = 2 ^ 1 := by norm_num
    _ ≤ 2 ^ (w - 1) := pow_le_pow_right₀ (by norm_num) (by omega)
  simp only [minS, maxS] at ha1 ha2 hb1 hb2 hmin
  rw [floorDivSIExpand_eq]
  rcases lt_trichotomy b 0 with hb | hb | hb
  · rcases lt_trichotomy a 0 with ha | ha | ha
    · -- a < 0, b < 0 : posRes
      rw [if_neg (by omega), floor_rat_neg a b hb, ← Int.neg_tdiv_neg a b,
        Int.tdiv_eq_ediv (by omega) (by omega)]
    · subst ha
      simp [Int.zero_tdiv]
    · -- a > 0, b < 0 : negRes
      rw [if_pos (by omega), if_pos hb]
      have e1 : wrap w (1 - a) = 1 - a := wrap_eq_self hw1 (by omega) (by omega)
      rw [e1, show (1 - a : Int) = -(a - 1) by ring, Int.neg_tdiv, ← Int.tdiv_neg,
        Int.tdiv_eq_ediv (by omega) (by omega)]
      have hq0 : 0 ≤ (a - 1) / (-b) := Int.ediv_nonneg (by omega) (by omega)
      have hqle : (a - 1) / (-b) ≤ a - 1 := Int.ediv_le_self (-b) (by omega)
      have e3 : wrap w (-1 - (a - 1) / (-b)) = -1 - (a - 1) / (-b) :=
        wrap_eq_self hw1 (by omega) (by omega)
      rw [e3, floor_rat_neg a b hb]
      have h := neg_one_sub_ediv (-a) (-b) (by omega)
      rw [show (-1 - -a : Int) = a - 1 by ring] at h
      exact h
  · exact absurd hb hb0
  · rcases lt_trichotomy a 0 with ha | ha | ha
    · -- a < 0, b > 0 : negRes
      rw [if_pos (by omega), if_neg (by omega)]
      have e1 : wrap w (-1 - a) = -1 - a := wrap_eq_self hw1 (by omega) (by omega)
      rw [e1, Int.tdiv_eq_ediv (by omega) (by omega)]
      have hq0 : 0 ≤ (-1 - a) / b := Int.ediv_nonneg (by omega) (by omega)
      have hqle : (-1 - a) / b ≤ -1 - a := Int.ediv_le_self b (by omega)
      have e3 : wrap w (-1 - (-1 - a) / b) = -1 - (-1 - a) / b :=
        wrap_eq_self hw1 (by omega) (by omega)
      rw [e3, neg_one_sub_ediv a b hb, floor_rat_pos a b hb]
    · subst ha
      simp [Int.zero_tdiv]
    · -- a > 0, b > 0 : posRes
      rw [if_neg (by omega), floor_rat_pos a b hb,
        Int.tdiv_eq_ediv (by omega) (by omega)]

/-- Claim C3: for every width `w ≥ 2` and unsigned `a, b < 2^w` with `b ≠ 0`,
the `CeilDivUIOpConverter` expansion `(a == 0) ? 0 : ((a - 1) / b) + 1` (with
wraparound subtraction and unsigned division) equals the mathematical ceiling
of `a / b`; in particular `a = 0` yields `0` and `a = UMAX, b = 2` yields
`2^(w-1)`. -/
theorem ceilDivUI_spec (w : Nat) (a b : Nat) (hw : 2 ≤ w)
    (ha : a < 2 ^ w) (hb : b < 2 ^ w) (hb0 : b ≠ 0) :
    ((ceilDivUIExpand w a b : ℤ) = ⌈(a:ℚ)/(b:ℚ)⌉) ∧
    ceilDivUIExpand w 0 b = 0 ∧
    ceilDivUIExpand w (2 ^ w - 1) 2 = 2 ^ (w - 1) := by
  have hw1 : (1:Nat) ≤ w := by omega
  have h2 := two_pow_split_nat hw1
  have hp1 : (1:Nat) ≤ 2 ^ (w - 1) := Nat.one_le_two_pow
  refine ⟨?_, by simp [ceilDivUIExpand], ?_⟩
  · by_cases ha0 : a = 0
    · subst ha0
      simp [ceilDivUIExpand]
    · have ha1 : 1 ≤ a := by omega
      rw [ceilDivUIExpand_eq, if_neg ha0]
      have em : (a + (2 ^ w - 1)) % 2 ^ w = a - 1 := by
        rw [show a + (2 ^ w - 1) = (a - 1) + 2 ^ w by omega, Nat.add_mod_right,
          Nat.mod_eq_of_lt (by omega)]
      rw [em]
      have hq : (a - 1) / b ≤ a - 1 := Nat.div_le_self _ _
      have ep : ((a - 1) / b + 1) % 2 ^ w = (a - 1) / b + 1 :=
        Nat.mod_eq_of_lt (by omega)
      rw [ep]
      have hbz : (0:ℤ) < (b:ℤ) := by exact_mod_cast Nat.pos_of_ne_zero hb0
      have hcast : (((a - 1) / b + 1 : ℕ) : ℤ) = ((a:ℤ) - 1) / (b:ℤ) + 1 := by
        push_cast [Int.ofNat_ediv]
        rw [Nat.cast_sub ha1]
        norm_num
      have hrhs : ⌈(a:ℚ)/(b:ℚ)⌉ = 1 + ((a:ℤ) - 1) / (b:ℤ) := by
        have hc : ((a:ℚ))/(b:ℚ) = ((((a:ℤ)):ℚ))/((((b:ℤ)):ℚ)) := by push_cast; rfl
        rw [hc, ceil_rat_pos _ _ hbz]
        have h := neg_one_sub_ediv (-(a:ℤ)) (b:ℤ) hbz
        rw [show (-1 - -(a:ℤ) : ℤ) = (a:ℤ) - 1 by ring] at h
        omega
      rw [hcast, hrhs]
      ring
  · rw [ceilDivUIExpand_eq, if_neg (by omega)]
    have em : ((2 ^ w - 1) + (2 ^ w - 1)) % 2 ^ w = 2 ^ w - 2 := by
      rw [show (2 ^ w - 1) + (2 ^ w - 1) = (2 ^ w - 2) + 2 ^ w by omega,
        Nat.add_mod_right, Nat.mod_eq_of_lt (by omega)]
    rw [em]
    have ed : (2 ^ w - 2) / 2 = 2 ^ (w - 1) - 1 := by
      rw [show 2 ^ w - 2 = 2 * (2 ^ (w - 1) - 1) by omega]
      exact Nat.mul_div_cancel_left _ (by norm_num)
    rw [ed, show 2 ^ (w - 1) - 1 + 1 = 2 ^ (w - 1) by omega]
    exact Nat.mod_eq_of_lt (by omega)

theorem ceilDivUI_spec_witness :
    (2 ≤ 4 ∧ 15 < 2 ^ 4 ∧ 2 < 2 ^ 4 ∧ (2:ℕ) ≠ 0) ∧
    ((ceilDivUIExpand 4 15 2 : ℤ) = ⌈((15:ℕ):ℚ)/(((2:ℕ)):ℚ)⌉) :=
  ⟨by decide, (ceilDivUI_spec 4 15 2 (by decide) (by decide) (by decide) (by decide)).1⟩

theorem floorDivSI_spec_witness :
    (2 ≤ 8 ∧ minS 8 ≤ (-7:ℤ) ∧ (-7:ℤ) ≤ maxS 8 ∧ minS 8 ≤ (2:ℤ) ∧
      (2:ℤ) ≤ maxS 8 ∧ (2:ℤ) ≠ 0 ∧ ¬((-7:ℤ) = minS 8 ∧ (2:ℤ) = -1)) ∧
    floorDivSIExpand 8 (-7) 2 = ⌊(((-7:ℤ)):ℚ)/(((2:ℤ)):ℚ)⌋ :=
  ⟨by refine ⟨by norm_num, by decide, by decide, by decide, by decide, by decide, by decide⟩,
   floorDivSI_spec 8 (-7) 2 (by norm_num) (by decide) (by decide) (by decide)
     (by decide) (by decide) (by decide)⟩

/-- Claim C1 (failing input): the `CeilDivSIOpConverter` expansion is NOT the
mathematical ceiling on the claimed domain.  At width `8`, `a = -128 = MIN`,
`b = 2` (allowed by the claim, which only excludes `a = MIN, b = -1`) the
expansion's negative branch computes `-((-a)/b)` where `-a` wraps back to
`-128`, producing `64`, while the mathematical ceiling of `-128/2` is `-64`.
The same overflow occurs for every `a = MIN_w, b ≥ 2`. -/
theorem ceilDivSI_min_overflow :
    ceilDivSIExpand 8 (-128) 2 = 64 ∧ ⌈((-128:ℤ):ℚ)/(((2:ℤ)):ℚ)⌉ = -64 := by
  constructor
  · decide
  · rw [show ((-128:ℤ):ℚ)/(((2:ℤ)):ℚ) = ((-64:ℤ):ℚ) by norm_num, Int.ceil_intCast]

/-- Claim C5: each of the four registered integer min/max instantiations
(`maxsi`/`sgt`, `maxui`/`ugt`, `minsi`/`slt`, `minui`/`ult`) expands to
`cmp(lhs, rhs) ? lhs : rhs`, the comparison reading the operands as signed
resp. unsigned `w`-bit values. -/
theorem maxMinI_spec (w : Nat) (lhs rhs : Nat) :
    (maxSIExpand w lhs rhs = if toSigned w lhs > toSigned w rhs then lhs else rhs) ∧
    (maxUIExpand w lhs rhs = if lhs > rhs then lhs else rhs) ∧
    (minSIExpand w lhs rhs = if toSigned w lhs < toSigned w rhs then lhs else rhs) ∧
    (minUIExpand w lhs rhs = if lhs < rhs then lhs else rhs) := by
  refine ⟨?_, ?_, ?_, ?_⟩ <;>
    simp [maxSIExpand, maxUIExpand, minSIExpand, minUIExpand, maxMinIExpand, cmpi]

/-- Model of a scalar IEEE float as the min/max expansion observes it: a NaN
(carrying its quiet bit) or a finite value with a negative-zero marker.  The
expansion only inspects NaN-ness and the ordering of represented values
(`+0 = -0` under IEEE comparison), which is exactly what this captures. -/
inductive Flt where
  | nan (quiet : Bool)
  | fin (v : ℚ) (negZero : Bool)
deriving DecidableEq, Repr

/-- Whether the operand is a NaN. -/
def Flt.isNaN : Flt → Bool
  | .nan _ => true
  | .fin _ _ => false

/-- The represented value of a non-NaN operand (both zeros denote `0`). -/
def Flt.val : Flt → ℚ
  | .nan _ => 0
  | .fin v _ => v

/-- The `arith.cmpf` predicates used by the pass. -/
inductive FPred where
  | ogt | olt | uno
deriving DecidableEq, Repr

/-- `arith.cmpf`: ordered comparisons are false when an operand is NaN; the
unordered predicate `UNO` is true iff some operand is NaN. -/
def cmpf (p : FPred) (x y : Flt) : Bool :=
  match p with
  | .ogt => !x.isNaN && !y.isNaN && decide (x.val > y.val)
  | .olt => !x.isNaN && !y.isNaN && decide (x.val < y.val)
  | .uno => x.isNaN || y.isNaN

/-- `MaxMinFOpConverter::matchAndRewrite`, scalar case: select on the ordered
comparison, overridden by the quiet-NaN constant (`APFloat::getQNaN`) when
the `UNO` comparison holds. -/
def maxMinFExpand (pred : FPred) (lhs rhs : Flt) : Flt :=
  let cmp := cmpf pred lhs rhs
  let sel := if cmp then lhs else rhs
  let isNaN := cmpf .uno lhs rhs
  let nan := Flt.nan true
  if isNaN then nan else sel

/-- `arith.maxf` instantiation registered in
`populateArithmeticExpandOpsPatterns` (predicate `OGT`). -/
def maxFExpand (lhs rhs : Flt) : Flt := maxMinFExpand .ogt lhs rhs

/-- `arith.minf` instantiation (predicate `OLT`). -/
def minFExpand (lhs rhs : Flt) : Flt := maxMinFExpand .olt lhs rhs

/-- Element-wise `SelectOp` with an `i1`-vector condition. -/
def selectV (c : List Bool) (x y : List Flt) : List Flt :=
  List.zipWith3 (fun b u v => if b then u else v) c x y

/-- `MaxMinFOpConverter::matchAndRewrite`, vector case: `cmpf` and the selects
are element-wise, and the scalar quiet-NaN constant is broadcast (`SplatOp`)
to the operand vector shape before the final select. -/
def maxMinFExpandVec (pred : FPred) (lhs rhs : List Flt) : List Flt :=
  let cmp := List.zipWith (cmpf pred) lhs rhs
  let sel := selectV cmp lhs rhs
  let isNaN := List.zipWith (cmpf .uno) lhs rhs
  let nan := Flt.nan true
  let nanV := List.replicate lhs.length nan
  selectV isNaN nanV sel

/-- Vector `arith.maxf` instantiation. -/
def maxFExpandVec (lhs rhs : List Flt) : List Flt := maxMinFExpandVec .ogt lhs rhs

/-- Vector `arith.minf` instantiation. -/
def minFExpandVec (lhs rhs : List Flt) : List Flt := maxMinFExpandVec .olt lhs rhs

/-- The vector expansion is the scalar expansion applied element-wise. -/
lemma maxMinFExpandVec_zipWith (pred : FPred) (lhs rhs : List Flt) :
    maxMinFExpandVec pred lhs rhs = List.zipWith (maxMinFExpand pred) lhs rhs := by
  induction lhs generalizing rhs with
  | nil => rfl
  | cons a as ih =>
    cases rhs with
    | nil => rfl
    | cons b bs =>
      simp only [maxMinFExpandVec, selectV, List.zipWith3, List.zipWith_cons_cons,
        List.length_cons, List.replicate_succ, maxMinFExpand]
      congr 1
      simpa [maxMinFExpandVec, selectV, List.zipWith3, maxMinFExpand] using ih bs

/-- Claim C4: for the `MaxF`/`MinF` expansion, if either operand is NaN the
result is the quiet NaN constant; otherwise the result is `lhs` exactly when
the fixed ordered comparison (`OGT` for max, `OLT` for min) holds and `rhs`
when it does not; and the vector expansion is the scalar one element-wise. -/
theorem maxMinF_spec (lhs rhs : Flt) (lv rv : List Flt) :
    (lhs.isNaN = true ∨ rhs.isNaN = true →
      maxFExpand lhs rhs = Flt.nan true ∧ minFExpand lhs rhs = Flt.nan true) ∧
    (lhs.isNaN = false → rhs.isNaN = false →
      (maxFExpand lhs rhs = if lhs.val > rhs.val then lhs else rhs) ∧
      (minFExpand lhs rhs = if lhs.val < rhs.val then lhs else rhs)) ∧
    maxFExpandVec lv rv = List.zipWith maxFExpand lv rv ∧
    minFExpandVec lv rv = List.zipWith minFExpand lv rv := by
  refine ⟨?_, ?_, ?_, ?_⟩
  · rintro (h | h) <;>
      simp [maxFExpand, minFExpand, maxMinFExpand, cmpf, h]
  · intro hl hr
    simp [maxFExpand, minFExpand, maxMinFExpand, cmpf, hl, hr]
  · exact maxMinFExpandVec_zipWith .ogt lv rv
  · exact maxMinFExpandVec_zipWith .olt lv rv

theorem maxMinF_spec_witness :
    (Flt.isNaN (Flt.nan false) = true ∨ Flt.isNaN (Flt.fin 1 false) = true) ∧
    maxFExpand (Flt.nan false) (Flt.fin 1 false) = Flt.nan true :=
  ⟨Or.inl rfl,
   ((maxMinF_spec (Flt.nan false) (Flt.fin 1 false) [] []).1 (Or.inl rfl)).1⟩

/-- Claim C10: when neither operand is NaN and the operands compare equal
under the float comparison (in particular `+0` vs `-0`), the strict ordered
predicate is false and the expansion returns `rhs`; so `MaxF(+0,-0)` and
`MinF(+0,-0)` return `-0`, and `MaxF(-0,+0)` and `MinF(-0,+0)` return `+0`. -/
theorem maxMinF_signed_zero_spec (lhs rhs : Flt) :
    (lhs.isNaN = false → rhs.isNaN = false → lhs.val = rhs.val →
      maxFExpand lhs rhs = rhs ∧ minFExpand lhs rhs = rhs) ∧
    maxFExpand (Flt.fin 0 false) (Flt.fin 0 true) = Flt.fin 0 true ∧
    minFExpand (Flt.fin 0 false) (Flt.fin 0 true) = Flt.fin 0 true ∧
    maxFExpand (Flt.fin 0 true) (Flt.fin 0 false) = Flt.fin 0 false ∧
    minFExpand (Flt.fin 0 true) (Flt.fin 0 false) = Flt.fin 0 false := by
  refine ⟨?_, by decide, by decide, by decide, by decide⟩
  intro hl hr hv
  simp [maxFExpand, minFExpand, maxMinFExpand, cmpf, hl, hr, hv]

theorem maxMinF_signed_zero_spec_witness :
    (Flt.isNaN (Flt.fin 0 false) = false ∧
      Flt.val (Flt.fin 0 false) = Flt.val (Flt.fin 0 true)) ∧
    maxFExpand (Flt.fin 0 false) (Flt.fin 0 true) = Flt.fin 0 true :=
  ⟨⟨rfl, rfl⟩,
   ((maxMinF_signed_zero_spec (Flt.fin 0 false) (Flt.fin 0 true)).1 rfl rfl rfl).1⟩

/-- Host IR types as the pass observes them: machine integers, one float
type, the predicate type `i1`, and element-wise vectors. -/
inductive MTy where
  | int (w : Nat)
  | float
  | i1
  | vec (n : Nat) (e : MTy)
deriving DecidableEq, Repr

/-- `getElementTypeOrSelf`. -/
def MTy.elem : MTy → MTy
  | .vec _ e => e
  | t => t

/-- Type of an `i1`-valued comparison over a value of this type. -/
def MTy.cmpShape : MTy → MTy
  | .vec n _ => .vec n .i1
  | _ => .i1

/-- Integer-like: scalar or vector of machine integers or `i1`. -/
def MTy.isIntLike : MTy → Bool
  | .int _ => true
  | .i1 => true
  | .vec _ (.int _) => true
  | .vec _ .i1 => true
  | _ => false

/-- Float-like: scalar or vector of floats. -/
def MTy.isFloatLike : MTy → Bool
  | .float => true
  | .vec _ .float => true
  | _ => false

/-- Deep embedding of replacement graphs: the ops a rule can emit (including,
so that their absence is checkable, the nine op kinds the pass makes illegal),
over the matched op's two operands `lhs`, `rhs`.  SSA sharing in the source is
flattened into a tree, which preserves the multiset of op kinds per `create`
call site and all result types. -/
inductive AExp where
  | lhs | rhs
  | cstI (v : Int)
  | qnanC
  | addi (x y : AExp)
  | subi (x y : AExp)
  | divsi (x y : AExp)
  | divui (x y : AExp)
  | andi (x y : AExp)
  | ori (x y : AExp)
  | muli (x y : AExp)
  | cmpi (p : IPred) (x y : AExp)
  | cmpf (p : FPred) (x y : AExp)
  | select (c x y : AExp)
  | splat (x : AExp)
  | ceildivsi (x y : AExp)
  | ceildivui (x y : AExp)
  | floordivsi (x y : AExp)
  | maxf (x y : AExp)
  | minf (x y : AExp)
  | maxsi (x y : AExp)
  | maxui (x y : AExp)
  | minsi (x y : AExp)
  | minui (x y : AExp)
deriving DecidableEq, Repr

/-- Typing of a same-type binary op whose operands must satisfy `f`. -/
def tyBin (f : MTy → Bool) (tx ty : Option MTy) : Option MTy :=
  match tx, ty with
  | some a, some b => if a = b ∧ f a then some a else none
  | _, _ => none

/-- Typing of a comparison: same-type operands satisfying `f`, `i1`-shaped
result. -/
def tyCmp (f : MTy → Bool) (tx ty : Option MTy) : Option MTy :=
  match tx, ty with
  | some a, some b => if a = b ∧ f a then some a.cmpShape else none
  | _, _ => none

/-- Typing of `SelectOp`: equal branch types, condition either scalar `i1`
or the `i1`-shaped form of the branch type. -/
def tySelect (tc tx ty : Option MTy) : Option MTy :=
  match tc, tx, ty with
  | some c, some a, some b =>
      if a = b ∧ (c = .i1 ∨ c = a.cmpShape) then some a else none
  | _, _, _ => none

/-- Typing of `SplatOp` targeting the operand vector type `t`. -/
def tySplat (t : MTy) (tx : Option MTy) : Option MTy :=
  match t, tx with
  | .vec n e, some a => if a = e then some (.vec n e) else none
  | _, _ => none

/-- Result type of a replacement expression over operands of type `t`,
following the builder's typing rules; `none` on a type mismatch. -/
def tyOf (t : MTy) : AExp → Option MTy
  | .lhs => some t
  | .rhs => some t
  | .cstI _ => if t.isIntLike then some t else none
  | .qnanC => if t.isFloatLike then some t.elem else none
  | .addi x y => tyBin MTy.isIntLike (tyOf t x) (tyOf t y)
  | .subi x y => tyBin MTy.isIntLike (tyOf t x) (tyOf t y)
  | .divsi x y => tyBin MTy.isIntLike (tyOf t x) (tyOf t y)
  | .divui x y => tyBin MTy.isIntLike (tyOf t x) (tyOf t y)
  | .andi x y => tyBin MTy.isIntLike (tyOf t x) (tyOf t y)
  | .ori x y => tyBin MTy.isIntLike (tyOf t x) (tyOf t y)
  | .muli x y => tyBin MTy.isIntLike (tyOf t x) (tyOf t y)
  | .cmpi _ x y => tyCmp MTy.isIntLike (tyOf t x) (tyOf t y)
  | .cmpf _ x y => tyCmp MTy.isFloatLike (tyOf t x) (tyOf t y)
  | .select c x y => tySelect (tyOf t c) (tyOf t x) (tyOf t y)
  | .splat x => tySplat t (tyOf t x)
  | .ceildivsi x y => tyBin MTy.isIntLike (tyOf t x) (tyOf t y)
  | .ceildivui x y => tyBin MTy.isIntLike (tyOf t x) (tyOf t y)
  | .floordivsi x y => tyBin MTy.isIntLike (tyOf t x) (tyOf t y)
  | .maxf x y => tyBin MTy.isFloatLike (tyOf t x) (tyOf t y)
  | .minf x y => tyBin MTy.isFloatLike (tyOf t x) (tyOf t y)
  | .maxsi x y => tyBin MTy.isIntLike (tyOf t x) (tyOf t y)
  | .maxui x y => tyBin MTy.isIntLike (tyOf t x) (tyOf t y)
  | .minsi x y => tyBin MTy.isIntLike (tyOf t x) (tyOf t y)
  | .minui x y => tyBin MTy.isIntLike (tyOf t x) (tyOf t y)

/-- Op kinds, for collecting what a replacement graph emits. -/
inductive OpKind where
  | constantI | constantF | addi | subi | divsi | divui | andi | ori | muli
  | cmpi | cmpf | select | splat
  | ceildivsi | ceildivui | floordivsi | maxf | minf | maxsi | maxui | minsi | minui
deriving DecidableEq, Repr

/-- All op kinds occurring in a replacement expression (operand leaves
`lhs`/`rhs` are not emitted ops). -/
def AExp.kinds : AExp → List OpKind
  | .lhs => []
  | .rhs => []
  | .cstI _ => [.constantI]
  | .qnanC => [.constantF]
  | .addi x y => .addi :: (x.kinds ++ y.kinds)
  | .subi x y => .subi :: (x.kinds ++ y.kinds)
  | .divsi x y => .divsi :: (x.kinds ++ y.kinds)
  | .divui x y => .divui :: (x.kinds ++ y.kinds)
  | .andi x y => .andi :: (x.kinds ++ y.kinds)
  | .ori x y => .ori :: (x.kinds ++ y.kinds)
  | .muli x y => .muli :: (x.kinds ++ y.kinds)
  | .cmpi _ x y => .cmpi :: (x.kinds ++ y.kinds)
  | .cmpf _ x y => .cmpf :: (x.kinds ++ y.kinds)
  | .select c x y => .select :: (c.kinds ++ x.kinds ++ y.kinds)
  | .splat x => .splat :: x.kinds
  | .ceildivsi x y => .ceildivsi :: (x.kinds ++ y.kinds)
  | .ceildivui x y => .ceildivui :: (x.kinds ++ y.kinds)
  | .floordivsi x y => .floordivsi :: (x.kinds ++ y.kinds)
  | .maxf x y => .maxf :: (x.kinds ++ y.kinds)
  | .minf x y => .minf :: (x.kinds ++ y.kinds)
  | .maxsi x y => .maxsi :: (x.kinds ++ y.kinds)
  | .maxui x y => .maxui :: (x.kinds ++ y.kinds)
  | .minsi x y => .minsi :: (x.kinds ++ y.kinds)
  | .minui x y => .minui :: (x.kinds ++ y.kinds)

/-- Replacement graph built by `CeilDivUIOpConverter::matchAndRewrite`. -/
def ceilDivUITree : AExp :=
  .select (.cmpi .eq .lhs (.cstI 0)) (.cstI 0)
    (.addi (.divui (.subi .lhs (.cstI 1)) .rhs) (.cstI 1))

/-- The sign test `(a<0 && b<0) || (a>0 && b>0)` of
`CeilDivSIOpConverter::matchAndRewrite`. -/
def ceilDivSICond : AExp :=
  .ori (.andi (.cmpi .slt .lhs (.cstI 0)) (.cmpi .slt .rhs (.cstI 0)))
    (.andi (.cmpi .sgt .lhs (.cstI 0)) (.cmpi .sgt .rhs (.cstI 0)))

/-- Replacement graph built by `CeilDivSIOpConverter::matchAndRewrite`. -/
def ceilDivSITree : AExp :=
  .select ceilDivSICond
    (.addi (.cstI 1)
      (.divsi
        (.addi (.select (.cmpi .sgt .rhs (.cstI 0)) (.cstI (-1)) (.cstI 1)) .lhs)
        .rhs))
    (.subi (.cstI 0) (.divsi (.subi (.cstI 0) .lhs) .rhs))

/-- The sign test `(a<0 && b>0) || (a>0 && b<0)` of
`FloorDivSIOpConverter::matchAndRewrite`. -/
def floorDivSICond : AExp :=
  .ori (.andi (.cmpi .slt .lhs (.cstI 0)) (.cmpi .sgt .rhs (.cstI 0)))
    (.andi (.cmpi .sgt .lhs (.cstI 0)) (.cmpi .slt .rhs (.cstI 0)))

/-- Replacement graph built by `FloorDivSIOpConverter::matchAndRewrite`. -/
def floorDivSITree : AExp :=
  .select floorDivSICond
    (.subi (.cstI (-1))
      (.divsi
        (.subi (.select (.cmpi .slt .rhs (.cstI 0)) (.cstI 1) (.cstI (-1))) .lhs)
        .rhs))
    (.divsi .lhs .rhs)

/-- Replacement graph built by `MaxMinFOpConverter::matchAndRewrite` for
operand type `t`: the NaN constant is broadcast exactly when `t` is a vector
(`dyn_cast<VectorType>` succeeds). -/
def maxMinFTree (p : FPred) (t : MTy) : AExp :=
  .select (.cmpf .uno .lhs .rhs)
    (match t with
     | .vec _ _ => .splat .qnanC
     | _ => .qnanC)
    (.select (.cmpf p .lhs .rhs) .lhs .rhs)

/-- Replacement graph built by `MaxMinIOpConverter::matchAndRewrite`. -/
def maxMinITree (p : IPred) : AExp :=
  .select (.cmpi p .lhs .rhs) .lhs .rhs

/-- The primitive op kinds a rule is allowed to emit. -/
def allowedKinds : List OpKind :=
  [.constantI, .constantF, .addi, .subi, .divsi, .divui, .andi, .ori,
   .cmpi, .cmpf, .select, .splat]

/-- The nine op kinds `runOnFunction` marks illegal, in `addIllegalOp`
order. -/
def illegalKinds : List OpKind :=
  [.ceildivsi, .ceildivui, .floordivsi, .maxf, .maxsi, .maxui, .minf, .minsi, .minui]

/-- A kind a rule may emit: an allowed primitive and not an illegal kind. -/
def legalKind (k : OpKind) : Bool :=
  decide (k ∈ allowedKinds) && !decide (k ∈ illegalKinds)

/-- The dialects the pass marks legal. -/
inductive Dialect where
  | arithmetic | standard
deriving DecidableEq, Repr

/-- The rewrite patterns, tagged by the op kind each one matches. -/
inductive PatternKind where
  | ceilDivSI | ceilDivUI | floorDivSI | maxF | minF | maxSI | maxUI | minSI | minUI
deriving DecidableEq, Repr

/-- `populateArithmeticExpandOpsPatterns`: the patterns added to the host
pattern set, in source order (with the fixed predicate parameters of the
`MaxMinF`/`MaxMinI` instantiations recorded by their tags). -/
def populateArithmeticExpandOpsPatterns : List PatternKind :=
  [.ceilDivSI, .ceilDivUI, .floorDivSI, .maxF, .minF, .maxSI, .maxUI, .minSI, .minUI]

/-- A conversion configuration: the pattern set plus the target's legality
declarations. -/
structure ConversionSetup where
  patterns : List PatternKind
  legalDialects : List Dialect
  illegalOps : List OpKind
deriving DecidableEq, Repr

/-- The configuration `ArithmeticExpandOpsPass::runOnFunction` builds before
invoking `applyPartialConversion`. -/
def expandOpsSetup : ConversionSetup where
  patterns := populateArithmeticExpandOpsPatterns
  legalDialects := [.arithmetic, .standard]
  illegalOps := illegalKinds

/-- The pass state the run step can change: only the failure signal
(`signalPassFailure`); the pass object carries no other fields. -/
structure PassState where
  failed : Bool
deriving DecidableEq, Repr

/-- `ArithmeticExpandOpsPass::runOnFunction`, the run step of the pass
returned by `createArithmeticExpandOpsPass`: builds `expandOpsSetup`, invokes
the host partial-conversion driver on it (abstracted as a `Bool`-valued
function of the setup, `true` = success) and calls `signalPassFailure`
iff the driver fails. -/
def runOnFunction (driver : ConversionSetup → Bool) : PassState :=
  if driver expandOpsSetup then { failed := false } else { failed := true }

/-- Claim C6: for every rule and every valid operand type — scalar or vector,
at every width `w` and vector size `n` — the type of the root replacement
value equals the result type of the replaced op; and the `MaxF`/`MinF`
expansion broadcasts the scalar quiet-NaN constant (`SplatOp`) to the operand
vector type before the final select whenever the operand type is a vector. -/
theorem shape_preservation (w n : Nat) (p : IPred) :
    tyOf (.int w) ceilDivUITree = some (.int w) ∧
    tyOf (.vec n (.int w)) ceilDivUITree = some (.vec n (.int w)) ∧
    tyOf (.int w) ceilDivSITree = some (.int w) ∧
    tyOf (.vec n (.int w)) ceilDivSITree = some (.vec n (.int w)) ∧
    tyOf (.int w) floorDivSITree = some (.int w) ∧
    tyOf (.vec n (.int w)) floorDivSITree = some (.vec n (.int w)) ∧
    tyOf (.int w) (maxMinITree p) = some (.int w) ∧
    tyOf (.vec n (.int w)) (maxMinITree p) = some (.vec n (.int w)) ∧
    tyOf .float (maxMinFTree .ogt .float) = some .float ∧
    tyOf (.vec n .float) (maxMinFTree .ogt (.vec n .float)) = some (.vec n .float) ∧
    tyOf .float (maxMinFTree .olt .float) = some .float ∧
    tyOf (.vec n .float) (maxMinFTree .olt (.vec n .float)) = some (.vec n .float) ∧
    maxMinFTree .ogt (.vec n .float) =
      .select (.cmpf .uno .lhs .rhs) (.splat .qnanC)
        (.select (.cmpf .ogt .lhs .rhs) .lhs .rhs) ∧
    maxMinFTree .olt (.vec n .float) =
      .select (.cmpf .uno .lhs .rhs) (.splat .qnanC)
        (.select (.cmpf .olt .lhs .rhs) .lhs .rhs) := by
  refine ⟨?_, ?_, ?_, ?_, ?_, ?_, ?_, ?_, ?_, ?_, ?_, ?_, rfl, rfl⟩ <;>
    simp [tyOf, ceilDivUITree, ceilDivSITree, ceilDivSICond, floorDivSITree,
      floorDivSICond, maxMinITree, maxMinFTree, tyBin, tyCmp, tySelect, tySplat,
      MTy.isIntLike, MTy.isFloatLike, MTy.cmpShape, MTy.elem]

/-- Claim C7: no rule's replacement graph contains any of the nine illegal op
kinds, and every emitted op is one of the allowed primitives (constants, add,
sub, signed/unsigned divide, and, or, integer/float compare, select,
broadcast) — the basis of idempotence under re-running the pass.  The
`MaxF`/`MinF` conjuncts hold for every operand type `t`, the integer min/max
conjunct for every registered predicate. -/
theorem no_forbidden_ops :
    (AExp.kinds ceilDivSITree).all legalKind = true ∧
    (AExp.kinds ceilDivUITree).all legalKind = true ∧
    (AExp.kinds floorDivSITree).all legalKind = true ∧
    (∀ t : MTy, (AExp.kinds (maxMinFTree .ogt t)).all legalKind = true) ∧
    (∀ t : MTy, (AExp.kinds (maxMinFTree .olt t)).all legalKind = true) ∧
    (∀ p : IPred, (AExp.kinds (maxMinITree p)).all legalKind = true) := by
  refine ⟨by decide, by decide, by decide, ?_, ?_, ?_⟩
  · intro t
    cases t <;> rfl
  · intro t
    cases t <;> rfl
  · intro p
    cases p <;> rfl

/-- Claim C8: no rule emits a multiplication over the operand's integer type,
and the sign tests of the signed ceiling- and floor-division expansions are
built only from comparisons against the zero constant combined with bitwise
and/or — never from a product `a * b`. -/
theorem no_multiplication :
    (AExp.kinds ceilDivSITree).contains OpKind.muli = false ∧
    (AExp.kinds ceilDivUITree).contains OpKind.muli = false ∧
    (AExp.kinds floorDivSITree).contains OpKind.muli = false ∧
    (∀ t : MTy, (AExp.kinds (maxMinFTree .ogt t)).contains OpKind.muli = false) ∧
    (∀ t : MTy, (AExp.kinds (maxMinFTree .olt t)).contains OpKind.muli = false) ∧
    (∀ p : IPred, (AExp.kinds (maxMinITree p)).contains OpKind.muli = false) ∧
    ((AExp.kinds ceilDivSICond).all fun k =>
      decide (k ∈ [OpKind.cmpi, OpKind.andi, OpKind.ori, OpKind.constantI])) = true ∧
    ((AExp.kinds floorDivSICond).all fun k =>
      decide (k ∈ [OpKind.cmpi, OpKind.andi, OpKind.ori, OpKind.constantI])) = true := by
  refine ⟨by decide, by decide, by decide, ?_, ?_, ?_, by decide, by decide⟩
  · intro t
    cases t <;> rfl
  · intro t
    cases t <;> rfl
  · intro p
    cases p <;> rfl

/-- Claim C9: the run step of the pass returned by
`createArithmeticExpandOpsPass` registers exactly the expansion patterns,
marks the arithmetic and standard dialects legal, marks exactly the nine
expanded op kinds illegal, and signals pass failure iff the host's
partial-conversion driver fails; its state is nothing but the failure flag,
so no other state change happens on failure. -/
theorem expand_pass_run_spec (driver : ConversionSetup → Bool) :
    expandOpsSetup.patterns = populateArithmeticExpandOpsPatterns ∧
    expandOpsSetup.legalDialects = [Dialect.arithmetic, Dialect.standard] ∧
    expandOpsSetup.illegalOps = illegalKinds ∧
    illegalKinds.length = 9 ∧
    illegalKinds.Nodup ∧
    runOnFunction driver = { failed := !driver expandOpsSetup } := by
  refine ⟨rfl, rfl, rfl, rfl, by decide, ?_⟩
  unfold runOnFunction
  cases h : driver expandOpsSetup <;> simp [h]
